import Mathlib

/-!
Shallow embedding of `src/flipper_serial.py` (Flipper Zero serial CLI client).

Conventions of the embedding:
* Raw bytes are modelled as `List Nat` (each entry one byte value).
* Command strings are Lean `String`s; `strBytes` maps them to their byte
  sequence (codepoint per char, which coincides with the UTF-8 bytes on the
  ASCII subset the protocol uses).
* Wall-clock deadlines and `select` polling are modelled by a finite list of
  poll events: `none` is a poll slice during which no data was ready, and
  `some c` is a successful `os.read` returning the chunk `c` (possibly
  empty).  The end of the event list is the deadline expiring.
* Serial writes are collected in an explicit trace (`SWrite`); device reads
  are supplied as inputs.  Python exceptions become explicit error values.
* Python's `"needle" in hay` substring test is `containsB`; `str.strip()` is
  `stripB` (ASCII whitespace); `bytes.decode("utf-8", errors="replace")` is
  modelled as the identity on the byte level, which is faithful for the
  ASCII markers ("Ready", "Storage error", ">: ") that the code tests for,
  since UTF-8 decoding with replacement preserves ASCII substrings.
-/

/-- Bytes of a string, one `Nat` per character codepoint (byte-exact on the
ASCII subset used by the protocol). -/
def strBytes (s : String) : List Nat := s.data.map Char.toNat

/-- Maximum chunk size for `storage write_chunk` (`WRITE_CHUNK_MAX = 512`). -/
def WRITE_CHUNK_MAX : Nat := 512

/-- The CLI prompt sentinel `b">: "` (`CLI_PROMPT_BYTES`). -/
def CLI_PROMPT_BYTES : List Nat := strBytes ">: "

/-- The handshake marker `b"Ready"` awaited by `storage_write`. -/
def READY_BYTES : List Nat := strBytes "Ready"

/-- The device's storage error marker `"Storage error"`. -/
def STORAGE_ERROR_BYTES : List Nat := strBytes "Storage error"

/-- Python's substring test `needle in hay` on bytes. -/
def containsB (needle : List Nat) : List Nat → Bool
  | [] => needle.isEmpty
  | b :: rest => needle.isPrefixOf (b :: rest) || containsB needle rest

/-- ASCII whitespace, as stripped by Python's `str.strip()` on the byte range
the protocol uses. -/
def wsp (b : Nat) : Bool :=
  b == 32 || b == 9 || b == 10 || b == 13 || b == 11 || b == 12

/-- Remove trailing elements satisfying `p` (right-hand side of `strip()`). -/
def dropTrailing (p : Nat → Bool) (l : List Nat) : List Nat :=
  (l.reverse.dropWhile p).reverse

/-- Python `str.strip()` at the byte level: drop ASCII whitespace from both
ends. -/
def stripB (l : List Nat) : List Nat := dropTrailing wsp (l.dropWhile wsp)

/-- Byte is an ASCII CSI parameter byte (`[0-9;]` in `_ANSI_RE`). -/
def isCsiParam (b : Nat) : Bool := (48 ≤ b && b ≤ 57) || b == 59

/-- Byte is an ASCII letter (`[a-zA-Z]`, the CSI final byte in `_ANSI_RE`). -/
def isCsiFinal (b : Nat) : Bool := (65 ≤ b && b ≤ 90) || (97 ≤ b && b ≤ 122)

/-- Try to consume `[0-9;]*[a-zA-Z]` at the head of the list (the part of
`_ANSI_RE` after `ESC [`); return the remainder on success.  Greedy matching
is exact here because the parameter and final byte classes are disjoint. -/
def csiTail : List Nat → Option (List Nat)
  | [] => none
  | b :: rest =>
    if isCsiParam b then csiTail rest
    else if isCsiFinal b then some rest
    else none

theorem csiTail_length : ∀ l l', csiTail l = some l' → l'.length < l.length
  | [], _, h => by simp [csiTail] at h
  | b :: rest, l', h => by
    simp only [csiTail] at h
    split at h
    · have := csiTail_length rest l' h
      simp only [List.length_cons]
      omega
    · split at h
      · cases h
        simp
      · cases h

/-- Worker for `strip_ansi`: scan left to right, removing each leftmost
non-overlapping match of `ESC [ [0-9;]* [a-zA-Z]`, exactly as `re.sub` does.
The fuel argument (instantiated with the list length, which every step
strictly decreases) only makes the recursion structural. -/
def stripAnsiGo : Nat → List Nat → List Nat
  | 0, l => l
  | _ + 1, [] => []
  | fuel + 1, 27 :: 91 :: rest =>
    match csiTail rest with
    | some rest' => stripAnsiGo fuel rest'
    | none => 27 :: stripAnsiGo fuel (91 :: rest)
  | fuel + 1, b :: rest => b :: stripAnsiGo fuel rest

/-- Model of `_strip_ansi`: remove every match of
`_ANSI_RE = \x1b\[[0-9;]*[a-zA-Z]`, leftmost first, non-overlapping. -/
def strip_ansi (l : List Nat) : List Nat := stripAnsiGo l.length l

/-- Python slice `data[-n:]`. -/
def lastN (n : Nat) (l : List Nat) : List Nat := l.drop (l.length - n)

/-- Model of `FlipperSerial._read_until_prompt`.  `events` is the sequence of
poll outcomes before the deadline (`none`: `select` timed out for this
≤0.5 s slice; `some c`: `os.read` returned chunk `c`); `data` is the
accumulator.  Running out of events is the deadline elapsing.  On success the
full accumulated buffer (prompt included) is returned; on timeout the error
carries `data[-200:]` as in the raised `TimeoutError` message. -/
def read_until_prompt : List (Option (List Nat)) → List Nat →
    Except (List Nat) (List Nat)
  | [], data =>
    if containsB CLI_PROMPT_BYTES data then .ok data
    else .error (lastN 200 data)
  | ev :: rest, data =>
    match ev with
    | some chunk =>
      if chunk.isEmpty then read_until_prompt rest data
      else
        let d := data ++ chunk
        if containsB CLI_PROMPT_BYTES d then .ok d
        else read_until_prompt rest d
    | none =>
      if containsB CLI_PROMPT_BYTES data then .ok data
      else read_until_prompt rest data

/-- One pass of `response.replace("\r\n", "\n").replace("\r", "\n")`: every
CRLF becomes one LF and every remaining CR becomes LF. -/
def nlNorm : List Nat → List Nat
  | [] => []
  | [b] => if b == 13 then [10] else [b]
  | b :: c :: rest =>
    if b == 13 then
      if c == 10 then 10 :: nlNorm rest
      else 10 :: nlNorm (c :: rest)
    else b :: nlNorm (c :: rest)

/-- Python `str.split("\n")` at the byte level (byte 10 as separator). -/
def splitOnNL : List Nat → List (List Nat)
  | [] => [[]]
  | b :: rest =>
    if b == 10 then [] :: splitOnNL rest
    else
      match splitOnNL rest with
      | h :: t => (b :: h) :: t
      | [] => [[b]]

/-- Python `"\n".join(lines)` at the byte level. -/
def joinNL : List (List Nat) → List Nat
  | [] => []
  | [l] => l
  | l :: ls => l ++ 10 :: joinNL ls

/-- Pop trailing lines satisfying `p` (the `while output_lines and
output_lines[-1].strip() in (...)` loop of `send_command`). -/
def dropTrailingLines (p : List Nat → Bool) (ls : List (List Nat)) :
    List (List Nat) :=
  (ls.reverse.dropWhile p).reverse

/-- The serial writes `FlipperSerial` methods perform, as a trace.
`ensure` is the bare `b"\r\n"` written by `_ensure_prompt`; `cmdline` is a
command plus `"\r\n"` written by `send_command`; `declare` is a
`storage write_chunk` command plus the lone `"\r"` written by
`storage_write`; `chunk` is a raw data chunk. -/
inductive SWrite
  | ensure
  | cmdline (s : String)
  | declare (s : String)
  | chunk (b : List Nat)
  deriving DecidableEq, Repr

/-- Failures of `send_command`: the `OSError` raised on a closed session and
the `TimeoutError` (carrying the buffer tail) from `_read_until_prompt`. -/
inductive CmdError
  | closed
  | timeout (tail : List Nat)
  deriving DecidableEq, Repr

instance {e a : Type} [DecidableEq e] [DecidableEq a] :
    DecidableEq (Except e a) := fun x y =>
  match x, y with
  | .ok v, .ok w =>
    if h : v = w then isTrue (by rw [h]) else isFalse (by simp [h])
  | .error v, .error w =>
    if h : v = w then isTrue (by rw [h]) else isFalse (by simp [h])
  | .ok _, .error _ => isFalse (fun h => Except.noConfusion h)
  | .error _, .ok _ => isFalse (fun h => Except.noConfusion h)

/-- The `FlipperSerial` session object: its `port` and the file descriptor,
`none` once closed. -/
structure FlipperSerial where
  port : String
  fd : Option Nat
  deriving DecidableEq, Repr

namespace FlipperSerial

/-- Index of the first line after the echoed command (`output_start` in
`send_command`): the first line whose stripped form equals the stripped
command, or the stripped command prefixed by the prompt; `0` if no echo line
is found. -/
def echoStart (lines : List (List Nat)) (cmdB : List Nat) : Nat :=
  match lines.findIdx? fun l =>
      stripB l == cmdB || stripB l == CLI_PROMPT_BYTES ++ cmdB with
  | some i => i + 1
  | none => 0

/-- Test from `send_command`'s trailing cleanup:
`line.strip() in (">:", ">: ", "")`. -/
def isPromptOrBlank (l : List Nat) : Bool :=
  stripB l == strBytes ">:" || stripB l == CLI_PROMPT_BYTES || stripB l == []

/-- Lines of the ANSI-stripped, newline-normalized raw response
(`lines` in `send_command`). -/
def responseLines (raw : List Nat) : List (List Nat) :=
  splitOnNL (nlNorm (strip_ansi raw))

/-- The `output_lines` of `send_command`: everything after the echoed
command line. -/
def outputLines (raw : List Nat) (cmd : String) : List (List Nat) :=
  let lines := responseLines raw
  lines.drop (echoStart lines (stripB (strBytes cmd)))

/-- The output lines with trailing prompt-only / blank lines popped. -/
def keptLines (raw : List Nat) (cmd : String) : List (List Nat) :=
  dropTrailingLines isPromptOrBlank (outputLines raw cmd)

/-- The string `send_command` returns, as bytes:
`"\n".join(output_lines).strip()`. -/
def logicalResponse (raw : List Nat) (cmd : String) : List Nat :=
  stripB (joinNL (keptLines raw cmd))

/-- Model of `FlipperSerial.send_command`.  On a closed session it raises
`OSError` before any I/O.  Otherwise it writes the `_ensure_prompt` newline
and the command, reads until the prompt (`reads` supplies the poll events),
and either times out or returns the cleaned logical response. -/
def send_command (s : FlipperSerial) (cmd : String)
    (reads : List (Option (List Nat))) :
    List SWrite × Except CmdError (List Nat) :=
  match s.fd with
  | none => ([], .error .closed)
  | some _ =>
    let writes := [SWrite.ensure, SWrite.cmdline (cmd ++ "\r\n")]
    match read_until_prompt reads [] with
    | .error tail => (writes, .error (.timeout tail))
    | .ok raw => (writes, .ok (logicalResponse raw cmd))

/-- Model of `FlipperSerial.close`: the descriptor is released (errors from
`os.close` are swallowed) and `fd` is set to `None`; a second call finds
`fd` already `None` and does nothing. -/
def close (s : FlipperSerial) : FlipperSerial := { s with fd := none }

end FlipperSerial

/-- Quote a remote path in double quotes when it contains a space
(`quoted_path` in `storage_write`, `quoted` in `storage_mkdir`). -/
def quotePath (p : String) : String :=
  if p.data.contains ' ' then "\"" ++ p ++ "\"" else p

/-- The exact bytes `storage_write` writes to declare one chunk:
`f"storage write_chunk {quoted_path} {chunk_size}\r"` — a single carriage
return, no line feed. -/
def writeChunkCmd (quotedPath : String) (size : Nat) : String :=
  "storage write_chunk " ++ quotedPath ++ " " ++ toString size ++ "\r"

/-- Failures of `storage_write`: `OSError` on a closed session,
`FileNotFoundError` for a missing local file, `RuntimeError` carrying the
device's storage-error text, and `TimeoutError`. -/
inductive WriteError
  | closed
  | fileNotFound
  | storageError (text : List Nat)
  | timeout
  deriving DecidableEq, Repr

/-- Device behaviour for one chunk round-trip: the chunks `os.read` returns
while `storage_write` waits for `"Ready"` (step 2), and those it returns
while it waits for the prompt acknowledgement (step 4). -/
def DevChunk : Type := List (List Nat) × List (List Nat)

/-- The accumulation loop shared by steps 2 and 4 of `storage_write`:
append each nonempty read and stop as soon as the ANSI-stripped accumulator
contains `marker`; exhausting the reads is the 10 s deadline elapsing.
Returns the raw accumulated bytes at exit. -/
def accumUntil (marker : List Nat) : List (List Nat) → List Nat → List Nat
  | [], acc => acc
  | c :: rest, acc =>
    if c.isEmpty then accumUntil marker rest acc
    else
      let a := acc ++ c
      if containsB marker (strip_ansi a) then a
      else accumUntil marker rest a

/-- The ANSI-stripped bytes step 2 of `storage_write` has accumulated for
chunk `i` when it decides how to proceed (`clean_ready`). -/
def readyClean (dev : Nat → DevChunk) (i : Nat) : List Nat :=
  strip_ansi (accumUntil READY_BYTES (dev i).1 [])

/-- The ANSI-stripped bytes step 4 of `storage_write` has accumulated for
chunk `i` when it decides how to proceed (`clean_resp`). -/
def ackClean (dev : Nat → DevChunk) (i : Nat) : List Nat :=
  strip_ansi (accumUntil CLI_PROMPT_BYTES (dev i).2 [])

/-- The `while offset < total_size` loop of `storage_write`.  Each pass
declares a chunk of `min(WRITE_CHUNK_MAX, remaining)` bytes, waits for
`"Ready"` (raising the storage error, else a timeout, if it never comes),
writes the raw chunk, and waits for the prompt (raising the storage error
if reported, a timeout if the prompt never comes).  The fuel (instantiated
with the remaining byte count, which every pass strictly decreases since a
chunk is at least one byte) only makes the recursion structural; the fuel-0
branch with data remaining is unreachable. -/
def writeLoopGo (qp : String) (dev : Nat → DevChunk) :
    Nat → Nat → List Nat → List SWrite → List SWrite × Option WriteError
  | _, _, [], acc => (acc, none)
  | 0, _, _ :: _, acc => (acc, none)
  | fuel + 1, chunkNum, b :: rest, acc =>
    let data := b :: rest
    let size := min WRITE_CHUNK_MAX data.length
    let chunkData := data.take size
    let acc1 := acc ++ [SWrite.declare (writeChunkCmd qp size)]
    let rd := readyClean dev chunkNum
    if containsB READY_BYTES rd then
      let acc2 := acc1 ++ [SWrite.chunk chunkData]
      let ad := ackClean dev chunkNum
      if containsB STORAGE_ERROR_BYTES ad then
        (acc2, some (.storageError ad))
      else if containsB CLI_PROMPT_BYTES ad then
        writeLoopGo qp dev fuel (chunkNum + 1) (data.drop size) acc2
      else (acc2, some .timeout)
    else if containsB STORAGE_ERROR_BYTES rd then
      (acc1, some (.storageError rd))
    else (acc1, some .timeout)

namespace FlipperSerial

/-- Model of `FlipperSerial.storage_write`.  `fileIsFile` is
`os.path.isfile(local_path)`, `fileData` the local file's content, `dev`
the device's reads per chunk round-trip.  Returns the trace of serial
writes and `none` on success or the raised error.  The closed-session
check, the missing-file check and the empty-payload early return happen in
this order, all before any serial write; then `_ensure_prompt` writes its
bare line terminator and the chunk loop runs. -/
def storage_write (s : FlipperSerial) (fileIsFile : Bool)
    (fileData : List Nat) (remotePath : String) (dev : Nat → DevChunk) :
    List SWrite × Option WriteError :=
  match s.fd with
  | none => ([], some .closed)
  | some _ =>
    if !fileIsFile then ([], some .fileNotFound)
    else if fileData.length = 0 then ([], none)
    else
      writeLoopGo (quotePath remotePath) dev fileData.length 0 fileData
        [SWrite.ensure]

end FlipperSerial

/-- The chunk payloads of a write trace, in order. -/
def chunkWrites (t : List SWrite) : List (List Nat) :=
  t.filterMap fun w =>
    match w with
    | .chunk b => some b
    | _ => none

/-- The chunk-declare strings of a write trace, in order. -/
def declares (t : List SWrite) : List String :=
  t.filterMap fun w =>
    match w with
    | .declare s => some s
    | _ => none

/-- A device that acknowledges every chunk round-trip: step 2's accumulated
bytes contain `"Ready"` and no storage error is reported before the prompt
acknowledgement of step 4. -/
def Cooperative (dev : Nat → DevChunk) : Prop :=
  ∀ i, containsB READY_BYTES (readyClean dev i) = true
    ∧ containsB STORAGE_ERROR_BYTES (ackClean dev i) = false
    ∧ containsB CLI_PROMPT_BYTES (ackClean dev i) = true

/-- The simplest cooperative simulated device: it answers `b"Ready"` to each
chunk declaration and a bare prompt to each chunk. -/
def okDevice : Nat → DevChunk := fun _ => ([READY_BYTES], [CLI_PROMPT_BYTES])

/-- The message of the `FileNotFoundError` raised by `detect_flipper_port`
when no candidate port exists. -/
def noPortMsg : String :=
  "No Flipper Zero serial port found. " ++
  "Expected /dev/cu.usbmodemflip_* — is the Flipper connected via USB?"

/-- The console output of `detect_flipper_port` in the multiple-candidate
case, kept structured: the list of all candidates from the first print and
the chosen port from the second. -/
inductive PortMsg
  | multiple (ports : List String)
  | usingPort (p : String)
  deriving DecidableEq, Repr

/-- The comparison `sorted()` uses on path strings: lexicographic
codepoint order. -/
def strLe (a b : String) : Bool := a ≤ b

/-- Model of `detect_flipper_port`.  `candidates` are the matches of
`glob.glob("/dev/cu.usbmodemflip_*")` (unordered); the code sorts them,
fails with `FileNotFoundError` when there are none, warns (without failing)
when there are several, and returns the first of the sorted list. -/
def detect_flipper_port (candidates : List String) :
    List PortMsg × Except String String :=
  let ports := candidates.mergeSort strLe
  match ports with
  | [] => ([], .error noPortMsg)
  | p :: rest =>
    (if rest.isEmpty then []
     else [PortMsg.multiple (p :: rest), PortMsg.usingPort p], .ok p)

/-- Kind tag of a `storage_list` entry (`'dir'` / `'file'`). -/
inductive EntryKind
  | dir
  | file
  deriving DecidableEq, Repr

/-- Python `parts.rsplit(None, 1)` for a stripped `parts`, as used on
`"[F]"` lines: `(parts, none)` when `parts` has no whitespace run, else the
text before the last whitespace run paired with the last token. -/
def rsplitLast (l : List Nat) : List Nat × Option (List Nat) :=
  let r := l.reverse
  let tok := r.takeWhile fun b => !wsp b
  let rest := r.dropWhile fun b => !wsp b
  if rest.isEmpty then (l, none)
  else ((rest.dropWhile wsp).reverse, some tok.reverse)

/-- The `for line in response.split("\n")` loop of `storage_list`: skip
blank and `"Storage error"` lines; `"[D]"` lines contribute a `dir` entry
named by the stripped text after the four-character marker prefix, when
nonempty; `"[F]"` lines contribute a `file` entry whose name drops the last
whitespace-delimited token (the size) when one exists. -/
def parseListLoop : List (List Nat) → List (List Nat × EntryKind)
  | [] => []
  | line :: rest =>
    let l := stripB line
    if l.isEmpty then parseListLoop rest
    else if containsB STORAGE_ERROR_BYTES l then parseListLoop rest
    else if (strBytes "[D]").isPrefixOf l then
      let name := stripB (l.drop 4)
      if name.isEmpty then parseListLoop rest
      else (name, .dir) :: parseListLoop rest
    else if (strBytes "[F]").isPrefixOf l then
      let parts := stripB (l.drop 4)
      if parts.isEmpty then parseListLoop rest
      else
        match rsplitLast parts with
        | (name, some _) => (name, .file) :: parseListLoop rest
        | (_, none) => (parts, .file) :: parseListLoop rest
    else parseListLoop rest

namespace FlipperSerial

/-- Model of the response parsing of `FlipperSerial.storage_list`: the
method sends `storage list <path>` through `send_command` (modelled by
`send_command` above) and parses the logical response line by line. -/
def storage_list (response : List Nat) : List (List Nat × EntryKind) :=
  parseListLoop (splitOnNL response)

/-- The command string `storage_mkdir` sends: the path is quoted when it
contains a space. -/
def mkdirCmd (path : String) : String :=
  "storage mkdir " ++ quotePath path

/-- Model of `FlipperSerial.storage_mkdir`: it sends `storage mkdir
<quoted>` and returns `send_command`'s response unchanged — there is no
inspection of the response text. -/
def storage_mkdir (s : FlipperSerial) (path : String)
    (reads : List (Option (List Nat))) :
    List SWrite × Except CmdError (List Nat) :=
  s.send_command (mkdirCmd path) reads

end FlipperSerial

/-- A simulated device whose ready-phase bytes are a storage error with no
`"Ready"`. -/
def devErr : Nat → DevChunk :=
  fun _ => ([strBytes "Storage error: boom"], [CLI_PROMPT_BYTES])

/-- A simulated device that acknowledges readiness but reports a storage
error (followed by a prompt) in the chunk-acknowledgement phase. -/
def devAckErr : Nat → DevChunk :=
  fun _ => ([READY_BYTES], [strBytes "Storage error: full\r\n>: "])

/-- A simulated device whose ready-phase bytes contain both the storage
error marker and `"Ready"`. -/
def devBoth : Nat → DevChunk :=
  fun _ => ([strBytes "Storage error: x Ready"], [CLI_PROMPT_BYTES])

/-! Theorems. -/

/-- Helper: a successful `_read_until_prompt` buffer contains the prompt. -/
theorem read_until_prompt_ok :
    ∀ (events : List (Option (List Nat))) (data d : List Nat),
      read_until_prompt events data = .ok d →
      containsB CLI_PROMPT_BYTES d = true := by
  intro events
  induction events with
  | nil =>
    intro data d h
    simp only [read_until_prompt] at h
    split at h
    · next hc => cases h; exact hc
    · exact Except.noConfusion h
  | cons ev rest ih =>
    intro data d h
    match ev with
    | none =>
      simp only [read_until_prompt] at h
      split at h
      · next hc => cases h; exact hc
      · exact ih _ _ h
    | some chunk =>
      simp only [read_until_prompt] at h
      split at h
      · exact ih _ _ h
      · split at h
        · next hc => cases h; exact hc
        · exact ih _ _ h

set_option maxRecDepth 2000 in
/-- Helper: a timed-out `_read_until_prompt` carries a bounded buffer tail. -/
theorem read_until_prompt_error :
    ∀ (events : List (Option (List Nat))) (data t : List Nat),
      read_until_prompt events data = .error t →
      t.length ≤ 200 ∧ t <:+ data ++ (events.filterMap id).flatten := by
  intro events
  induction events with
  | nil =>
    intro data t h
    simp only [read_until_prompt] at h
    split at h
    · exact Except.noConfusion h
    · cases h
      refine ⟨?_, ?_⟩
      · simp only [lastN, List.length_drop]; omega
      · simpa [lastN] using List.drop_suffix (data.length - 200) data
  | cons ev rest ih =>
    intro data t h
    match ev with
    | none =>
      simp only [read_until_prompt] at h
      split at h
      · exact Except.noConfusion h
      · obtain ⟨h1, h2⟩ := ih _ _ h
        exact ⟨h1, by simpa using h2⟩
    | some chunk =>
      simp only [read_until_prompt] at h
      split at h
      · next hc =>
        obtain ⟨h1, h2⟩ := ih _ _ h
        rw [List.isEmpty_iff] at hc
        subst hc
        exact ⟨h1, by simpa using h2⟩
      · split at h
        · exact Except.noConfusion h
        · obtain ⟨h1, h2⟩ := ih _ _ h
          exact ⟨h1, by simpa [List.append_assoc] using h2⟩

/-- C3: whenever `_read_until_prompt` returns, the returned buffer contains
the prompt sentinel (no partial success); whenever the poll budget (the
deadline) is exhausted without the sentinel it fails with a timeout whose
payload is at most the last 200 bytes accumulated — a suffix of the initial
buffer plus everything read.  The function is structurally total in its
poll events, so it cannot run past the deadline. -/
theorem read_until_prompt_spec (events : List (Option (List Nat)))
    (data : List Nat) :
    match read_until_prompt events data with
    | .ok d => containsB CLI_PROMPT_BYTES d = true
    | .error t => t.length ≤ 200 ∧ t <:+ data ++ (events.filterMap id).flatten := by
  cases hrec : read_until_prompt events data with
  | ok d => exact read_until_prompt_ok events data d hrec
  | error t => exact read_until_prompt_error events data t hrec

/-- C6: a zero-length payload makes `storage_write` return success at once:
no serial write at all (the trace is empty — not even the `_ensure_prompt`
resync write happens) and no error. -/
theorem storage_write_empty_noop (p : String) (n : Nat) (path : String)
    (dev : Nat → DevChunk) :
    FlipperSerial.storage_write ⟨p, some n⟩ true [] path dev = ([], none) := rfl

/-- C7: `close` is idempotent and leaves `fd = None`; afterwards
`send_command` and `storage_write` both fail with the closed-session error
before performing any transport I/O (their write traces are empty). -/
theorem close_idempotent_closed_ops (s : FlipperSerial) (cmd : String)
    (reads : List (Option (List Nat))) (isf : Bool) (data : List Nat)
    (path : String) (dev : Nat → DevChunk) :
    FlipperSerial.close (FlipperSerial.close s) = FlipperSerial.close s
  ∧ (FlipperSerial.close s).fd = none
  ∧ (FlipperSerial.close s).send_command cmd reads = ([], .error .closed)
  ∧ (FlipperSerial.close s).storage_write isf data path dev
      = ([], some .closed) :=
  ⟨rfl, rfl, rfl, rfl⟩

/-- C2 (amended): whenever the upload loop reaches a chunk whose ready-wait
accumulation (ANSI-stripped) contains the storage-error marker without
containing `"Ready"`, or whose acknowledgement-wait accumulation contains
the storage-error marker, `storage_write` fails with the storage error
carrying that accumulated text — never with a timeout. -/
theorem storage_write_storage_error (qp : String) (dev : Nat → DevChunk)
    (fuel chunkNum : Nat) (b : Nat) (rest : List Nat) (acc : List SWrite) :
    (containsB STORAGE_ERROR_BYTES (readyClean dev chunkNum) = true →
     containsB READY_BYTES (readyClean dev chunkNum) = false →
     (writeLoopGo qp dev (fuel + 1) chunkNum (b :: rest) acc).2
       = some (.storageError (readyClean dev chunkNum)))
  ∧ (containsB READY_BYTES (readyClean dev chunkNum) = true →
     containsB STORAGE_ERROR_BYTES (ackClean dev chunkNum) = true →
     (writeLoopGo qp dev (fuel + 1) chunkNum (b :: rest) acc).2
       = some (.storageError (ackClean dev chunkNum))) := by
  constructor
  · intro h1 h2
    simp [writeLoopGo, h1, h2]
  · intro h1 h2
    simp [writeLoopGo, h1, h2]

theorem storage_write_storage_error_witness :
    ((containsB STORAGE_ERROR_BYTES (readyClean devErr 0) = true
        ∧ containsB READY_BYTES (readyClean devErr 0) = false
        ∧ (writeLoopGo "/ext/f" devErr 3 0 [1, 2, 3] []).2
            = some (.storageError (readyClean devErr 0)))
      ∧ (containsB READY_BYTES (readyClean devAckErr 0) = true
        ∧ containsB STORAGE_ERROR_BYTES (ackClean devAckErr 0) = true
        ∧ (writeLoopGo "/ext/f" devAckErr 3 0 [1, 2, 3] []).2
            = some (.storageError (ackClean devAckErr 0)))) :=
  ⟨⟨by decide, by decide,
    (storage_write_storage_error "/ext/f" devErr 2 0 1 [2, 3] []).1
      (by decide) (by decide)⟩,
   ⟨by decide, by decide,
    (storage_write_storage_error "/ext/f" devAckErr 2 0 1 [2, 3] []).2
      (by decide) (by decide)⟩⟩

/-- C2 counterexample to the claim as stated: a device whose ready-wait
bytes contain the storage-error marker (together with `"Ready"`) does NOT
make the operation fail — the upload completes successfully, so the claim
that the presence of the marker in the accumulated bytes always yields a
`StorageError` is false. -/
theorem storage_write_error_marker_ce :
    containsB STORAGE_ERROR_BYTES (readyClean devBoth 0) = true
  ∧ (FlipperSerial.storage_write ⟨"p", some 0⟩ true [1, 2, 3] "/ext/f"
      devBoth).2 = none := by
  constructor
  · decide
  · decide

theorem chunkWrites_append (a b : List SWrite) :
    chunkWrites (a ++ b) = chunkWrites a ++ chunkWrites b :=
  List.filterMap_append a b _

theorem declares_append (a b : List SWrite) :
    declares (a ++ b) = declares a ++ declares b :=
  List.filterMap_append a b _

/-- The trace contribution of the successful round-trips for chunks `cs`. -/
def declChunkTrace (qp : String) (cs : List (List Nat)) : List SWrite :=
  (cs.map fun c =>
    [SWrite.declare (writeChunkCmd qp c.length), SWrite.chunk c]).flatten

theorem chunkWrites_declChunkTrace (qp : String) (cs : List (List Nat)) :
    chunkWrites (declChunkTrace qp cs) = cs := by
  induction cs with
  | nil => rfl
  | cons c cs ih =>
    simp only [declChunkTrace, List.map_cons, List.flatten_cons] at *
    rw [chunkWrites_append, ih]
    rfl

theorem declares_declChunkTrace (qp : String) (cs : List (List Nat)) :
    declares (declChunkTrace qp cs)
      = cs.map fun c => writeChunkCmd qp c.length := by
  induction cs with
  | nil => rfl
  | cons c cs ih =>
    simp only [declChunkTrace, List.map_cons, List.flatten_cons] at *
    rw [declares_append, ih]
    rfl

/-- Against a device that acknowledges every round-trip, the upload loop
succeeds, and its write trace declares and writes exactly the successive
`min(512, remaining)`-byte slices of the payload. -/
theorem writeLoopGo_cooperative (qp : String) (dev : Nat → DevChunk)
    (hdev : Cooperative dev) :
    ∀ fuel data chunkNum acc, data.length ≤ fuel →
    ∃ cs : List (List Nat),
      writeLoopGo qp dev fuel chunkNum data acc
        = (acc ++ declChunkTrace qp cs, none)
      ∧ cs.flatten = data
      ∧ (∀ c ∈ cs, 0 < c.length ∧ c.length ≤ WRITE_CHUNK_MAX)
      ∧ cs.length = (data.length + 511) / 512 := by
  intro fuel
  induction fuel with
  | zero =>
    intro data chunkNum acc hlen
    have hd : data = [] := List.eq_nil_of_length_eq_zero (Nat.le_zero.mp hlen)
    subst hd
    exact ⟨[], by simp [writeLoopGo, declChunkTrace]⟩
  | succ fuel ih =>
    intro data chunkNum acc hlen
    match data with
    | [] => exact ⟨[], by simp [writeLoopGo, declChunkTrace]⟩
    | b :: rest =>
      obtain ⟨h1, h2, h3⟩ := hdev chunkNum
      have hlen' : ((b :: rest).drop (min WRITE_CHUNK_MAX (b :: rest).length)).length ≤ fuel := by
        simp only [List.length_drop, List.length_cons] at *
        simp only [WRITE_CHUNK_MAX]
        omega
      obtain ⟨cs, heq, hflat, hbnd, hcount⟩ :=
        ih ((b :: rest).drop (min WRITE_CHUNK_MAX (b :: rest).length))
          (chunkNum + 1)
          ((acc ++ [SWrite.declare (writeChunkCmd qp (min WRITE_CHUNK_MAX (b :: rest).length))])
            ++ [SWrite.chunk ((b :: rest).take (min WRITE_CHUNK_MAX (b :: rest).length))])
          hlen'
      refine ⟨(b :: rest).take (min WRITE_CHUNK_MAX (b :: rest).length) :: cs, ?_, ?_, ?_, ?_⟩
      · simp only [writeLoopGo, h1, h2, h3, if_true, if_false, Bool.false_eq_true]
        rw [heq]
        have hts : ((b :: rest).take (min WRITE_CHUNK_MAX (b :: rest).length)).length
            = min WRITE_CHUNK_MAX (b :: rest).length := by
          simp only [List.length_take]
          omega
        simp only [declChunkTrace, List.map_cons, List.flatten_cons, hts]
        simp [List.append_assoc]
      · simp only [List.flatten_cons, hflat]
        exact List.take_append_drop _ _
      · intro c hc
        rcases List.mem_cons.mp hc with hc | hc
        · subst hc
          constructor
          · simp only [List.length_take, List.length_cons, WRITE_CHUNK_MAX]
            omega
          · simp only [List.length_take, WRITE_CHUNK_MAX]
            omega
        · exact hbnd c hc
      · simp only [List.length_cons, hcount, List.length_drop, List.length_cons,
          WRITE_CHUNK_MAX]
        omega

theorem okDevice_cooperative : Cooperative okDevice := by
  intro i
  refine ⟨?_, ?_, ?_⟩
  · show containsB READY_BYTES
        (strip_ansi (accumUntil READY_BYTES [READY_BYTES] [])) = true
    decide
  · show containsB STORAGE_ERROR_BYTES
        (strip_ansi (accumUntil CLI_PROMPT_BYTES [CLI_PROMPT_BYTES] [])) = false
    decide
  · show containsB CLI_PROMPT_BYTES
        (strip_ansi (accumUntil CLI_PROMPT_BYTES [CLI_PROMPT_BYTES] [])) = true
    decide

/-- C1: for a payload of length `L > 0`, against a device that acknowledges
every round-trip, `storage_write` succeeds and its trace contains exactly
`ceil(L / 512)` chunk writes, each of at most 512 bytes, whose
concatenation is the payload byte-for-byte. -/
theorem storage_write_chunk_roundtrips (p : String) (n : Nat)
    (data : List Nat) (path : String) (dev : Nat → DevChunk)
    (hdev : Cooperative dev) (hlen : 0 < data.length) :
    (FlipperSerial.storage_write ⟨p, some n⟩ true data path dev).2 = none
  ∧ (chunkWrites
      (FlipperSerial.storage_write ⟨p, some n⟩ true data path dev).1).length
      = (data.length + 511) / 512
  ∧ (∀ c ∈ chunkWrites
      (FlipperSerial.storage_write ⟨p, some n⟩ true data path dev).1,
      c.length ≤ WRITE_CHUNK_MAX)
  ∧ (chunkWrites
      (FlipperSerial.storage_write ⟨p, some n⟩ true data path dev).1).flatten
      = data := by
  have hne : ¬ data.length = 0 := by omega
  obtain ⟨cs, heq, hflat, hbnd, hcount⟩ :=
    writeLoopGo_cooperative (quotePath path) dev hdev data.length data 0
      [SWrite.ensure] le_rfl
  have hsw : FlipperSerial.storage_write ⟨p, some n⟩ true data path dev
      = ([SWrite.ensure] ++ declChunkTrace (quotePath path) cs, none) := by
    simp only [FlipperSerial.storage_write, Bool.not_true, Bool.false_eq_true,
      if_false, hne, ite_false]
    exact heq
  have hcw : chunkWrites
      (FlipperSerial.storage_write ⟨p, some n⟩ true data path dev).1 = cs := by
    rw [hsw]
    simp only [chunkWrites_append, chunkWrites_declChunkTrace]
    rfl
  refine ⟨by rw [hsw], ?_, ?_, ?_⟩
  · rw [hcw]; exact hcount
  · rw [hcw]; intro c hc; exact (hbnd c hc).2
  · rw [hcw]; exact hflat

theorem storage_write_chunk_roundtrips_witness :
    Cooperative okDevice ∧ 0 < (List.replicate 600 7).length
  ∧ ((FlipperSerial.storage_write ⟨"/dev/p", some 0⟩ true
        (List.replicate 600 7) "/ext/t.bin" okDevice).2 = none
    ∧ (chunkWrites (FlipperSerial.storage_write ⟨"/dev/p", some 0⟩ true
        (List.replicate 600 7) "/ext/t.bin" okDevice).1).length
        = ((List.replicate 600 7).length + 511) / 512
    ∧ (∀ c ∈ chunkWrites (FlipperSerial.storage_write ⟨"/dev/p", some 0⟩ true
        (List.replicate 600 7) "/ext/t.bin" okDevice).1,
        c.length ≤ WRITE_CHUNK_MAX)
    ∧ (chunkWrites (FlipperSerial.storage_write ⟨"/dev/p", some 0⟩ true
        (List.replicate 600 7) "/ext/t.bin" okDevice).1).flatten
        = List.replicate 600 7) :=
  ⟨okDevice_cooperative, by rw [List.length_replicate]; omega,
   storage_write_chunk_roundtrips "/dev/p" 0 (List.replicate 600 7)
     "/ext/t.bin" okDevice okDevice_cooperative
     (by rw [List.length_replicate]; omega)⟩

/-- C5: on a successful upload the chunk-declare strings written to the
transport are exactly `storage write_chunk <path> <size>` followed by a
single carriage return (no line feed), where `<size>` is the byte count of
the corresponding raw chunk write and the path is wrapped in double quotes
exactly when it contains a space. -/
theorem storage_write_declare_form (p : String) (n : Nat) (data : List Nat)
    (path : String) (dev : Nat → DevChunk) (hdev : Cooperative dev) :
    declares (FlipperSerial.storage_write ⟨p, some n⟩ true data path dev).1
      = (chunkWrites
          (FlipperSerial.storage_write ⟨p, some n⟩ true data path dev).1).map
          fun c => "storage write_chunk "
            ++ (if path.data.contains ' ' then "\"" ++ path ++ "\"" else path)
            ++ " " ++ toString c.length ++ "\r" := by
  by_cases hz : data.length = 0
  · have hd : data = [] := List.eq_nil_of_length_eq_zero hz
    subst hd
    rfl
  · obtain ⟨cs, heq, hflat, hbnd, hcount⟩ :=
      writeLoopGo_cooperative (quotePath path) dev hdev data.length data 0
        [SWrite.ensure] le_rfl
    have hsw : FlipperSerial.storage_write ⟨p, some n⟩ true data path dev
        = ([SWrite.ensure] ++ declChunkTrace (quotePath path) cs, none) := by
      simp only [FlipperSerial.storage_write, Bool.not_true, Bool.false_eq_true,
        if_false, hz, ite_false]
      exact heq
    rw [hsw]
    simp only [declares_append, chunkWrites_append, declares_declChunkTrace,
      chunkWrites_declChunkTrace]
    have h1 : declares [SWrite.ensure] = [] := rfl
    have h2 : chunkWrites [SWrite.ensure] = [] := rfl
    rw [h1, h2]
    simp only [List.nil_append, writeChunkCmd, quotePath]

theorem storage_write_declare_form_witness :
    Cooperative okDevice
  ∧ declares (FlipperSerial.storage_write ⟨"/dev/p", some 0⟩ true [1, 2, 3]
        "/ext/my dir/a.txt" okDevice).1
      = (chunkWrites (FlipperSerial.storage_write ⟨"/dev/p", some 0⟩ true
          [1, 2, 3] "/ext/my dir/a.txt" okDevice).1).map
          fun c => "storage write_chunk "
            ++ (if ("/ext/my dir/a.txt" : String).data.contains ' '
                then "\"" ++ "/ext/my dir/a.txt" ++ "\""
                else "/ext/my dir/a.txt")
            ++ " " ++ toString c.length ++ "\r" :=
  ⟨okDevice_cooperative,
   storage_write_declare_form "/dev/p" 0 [1, 2, 3] "/ext/my dir/a.txt"
     okDevice okDevice_cooperative⟩

/-- C8: port discovery with zero candidate paths fails with the not-found
error whose message names the expected glob pattern; with two or more
candidates it never errors: it deterministically returns the
lexicographically least candidate and first prints a warning listing all
candidates. -/
theorem detect_flipper_port_spec (candidates : List String)
    (h2 : 2 ≤ candidates.length) :
    detect_flipper_port [] = ([], .error noPortMsg)
  ∧ containsB (strBytes "/dev/cu.usbmodemflip_*") (strBytes noPortMsg) = true
  ∧ ∃ p rest, detect_flipper_port candidates
        = ([PortMsg.multiple (p :: rest), PortMsg.usingPort p], .ok p)
      ∧ p ∈ candidates
      ∧ (∀ q ∈ candidates, p ≤ q)
      ∧ (p :: rest).Perm candidates := by
  refine ⟨by simp [detect_flipper_port], by decide, ?_⟩
  have hperm := List.mergeSort_perm candidates strLe
  have hlen : 2 ≤ (candidates.mergeSort strLe).length := by
    rw [hperm.length_eq]
    exact h2
  have htrans : ∀ a b c : String, strLe a b → strLe b c → strLe a c := by
    intro a b c hab hbc
    simp only [strLe, decide_eq_true_eq] at *
    exact le_trans hab hbc
  have htotal : ∀ a b : String, strLe a b || strLe b a := by
    intro a b
    simp only [strLe, Bool.or_eq_true, decide_eq_true_eq]
    exact le_total a b
  have hsort := List.sorted_mergeSort htrans htotal candidates
  match hm : candidates.mergeSort strLe with
  | [] => rw [hm] at hlen; simp at hlen
  | [p] => rw [hm] at hlen; simp at hlen
  | p :: q :: rest' =>
    rw [hm] at hperm hsort
    refine ⟨p, q :: rest', ?_, ?_, ?_, hperm⟩
    · simp [detect_flipper_port, hm]
    · exact hperm.mem_iff.mp (List.mem_cons_self p (q :: rest'))
    · intro r hr
      have hr' : r ∈ p :: q :: rest' := hperm.mem_iff.mpr hr
      rcases List.mem_cons.mp hr' with hr' | hr'
      · subst hr'
        exact le_refl r
      · have := List.rel_of_pairwise_cons hsort hr'
        simpa [strLe, decide_eq_true_eq] using this

theorem detect_flipper_port_spec_witness :
    2 ≤ (["/dev/cu.usbmodemflip_B", "/dev/cu.usbmodemflip_A"] :
          List String).length
  ∧ (detect_flipper_port [] = ([], .error noPortMsg)
    ∧ containsB (strBytes "/dev/cu.usbmodemflip_*") (strBytes noPortMsg)
        = true
    ∧ ∃ p rest, detect_flipper_port
          ["/dev/cu.usbmodemflip_B", "/dev/cu.usbmodemflip_A"]
          = ([PortMsg.multiple (p :: rest), PortMsg.usingPort p], .ok p)
        ∧ p ∈ ["/dev/cu.usbmodemflip_B", "/dev/cu.usbmodemflip_A"]
        ∧ (∀ q ∈ ["/dev/cu.usbmodemflip_B", "/dev/cu.usbmodemflip_A"], p ≤ q)
        ∧ (p :: rest).Perm ["/dev/cu.usbmodemflip_B",
            "/dev/cu.usbmodemflip_A"]) :=
  ⟨by decide,
   detect_flipper_port_spec ["/dev/cu.usbmodemflip_B",
     "/dev/cu.usbmodemflip_A"] (by decide)⟩

theorem splitOnNL_no10 (l : List Nat) (h : ∀ b ∈ l, ¬ b = 10) :
    splitOnNL l = [l] := by
  induction l with
  | nil => rfl
  | cons b rest ih =>
    have hb : ¬ b = 10 := h b (List.mem_cons_self b rest)
    have hrest : splitOnNL rest = [rest] :=
      ih fun x hx => h x (List.mem_cons_of_mem b hx)
    simp only [splitOnNL, beq_iff_eq, if_neg hb, hrest]

theorem splitOnNL_append (a b' : List Nat) (ha : ∀ x ∈ a, ¬ x = 10) :
    splitOnNL (a ++ 10 :: b') = a :: splitOnNL b' := by
  induction a with
  | nil => simp [splitOnNL]
  | cons c a' ih =>
    have hc : ¬ c = 10 := ha c (List.mem_cons_self c a')
    have ha' : splitOnNL (a' ++ 10 :: b') = a' :: splitOnNL b' :=
      ih fun x hx => ha x (List.mem_cons_of_mem c hx)
    simp only [List.cons_append, splitOnNL, beq_iff_eq, if_neg hc,
      List.append_eq, ha']

theorem splitOnNL_joinNL :
    ∀ ls : List (List Nat), ls ≠ [] →
      (∀ l ∈ ls, ∀ x ∈ l, ¬ x = 10) → splitOnNL (joinNL ls) = ls := by
  intro ls
  induction ls with
  | nil => intro h; exact absurd rfl h
  | cons l ls ih =>
    intro _ hno
    match ls with
    | [] =>
      simp only [joinNL]
      exact splitOnNL_no10 l (hno l (List.mem_cons_self l []))
    | l2 :: ls' =>
      have hj : joinNL (l :: l2 :: ls') = l ++ 10 :: joinNL (l2 :: ls') := rfl
      rw [hj, splitOnNL_append l _ (hno l (List.mem_cons_self l _)),
        ih (by simp) fun x hx => hno x (List.mem_cons_of_mem l hx)]

theorem parseListLoop_append (xs ys : List (List Nat)) :
    parseListLoop (xs ++ ys) = parseListLoop xs ++ parseListLoop ys := by
  induction xs with
  | nil => rfl
  | cons line xs ih =>
    simp only [List.cons_append, parseListLoop]
    split
    · exact ih
    · split
      · exact ih
      · split
        · split
          · exact ih
          · simp only [List.append_eq, ih, List.cons_append]
        · split
          · split
            · exact ih
            · split
              · simp only [List.append_eq, ih, List.cons_append]
              · simp only [List.append_eq, ih, List.cons_append]
          · exact ih

theorem dropWhile_eq_self_head (p : Nat → Bool) (l : List Nat)
    (h : l.dropWhile p = l) (hne : l ≠ []) :
    ∃ c t, l = c :: t ∧ p c = false := by
  match l with
  | [] => exact absurd rfl hne
  | c :: t =>
    by_cases hp : p c = true
    · rw [List.dropWhile_cons_of_pos hp] at h
      have hs : (t.dropWhile p).length ≤ t.length :=
        (List.dropWhile_sublist p).length_le
      have := congrArg List.length h
      simp only [List.length_cons] at this
      omega
    · exact ⟨c, t, rfl, by simpa using hp⟩

theorem dropWhile_append_left (p : Nat → Bool) (l x : List Nat)
    (h : l.dropWhile p = l) (hne : l ≠ []) :
    (l ++ x).dropWhile p = l ++ x := by
  obtain ⟨c, t, rfl, hp⟩ := dropWhile_eq_self_head p l h hne
  simp [List.dropWhile_cons, hp]

theorem dropTrailing_append (p : Nat → Bool) (a l : List Nat)
    (h : dropTrailing p l = l) (hne : l ≠ []) :
    dropTrailing p (a ++ l) = a ++ l := by
  have hrev : l.reverse.dropWhile p = l.reverse := by
    have := congrArg List.reverse h
    simpa [dropTrailing] using this
  have hrne : l.reverse ≠ [] := by simpa using hne
  have hmain : (l.reverse ++ a.reverse).dropWhile p = l.reverse ++ a.reverse :=
    dropWhile_append_left p l.reverse a.reverse hrev hrne
  simp only [dropTrailing, List.reverse_append, hmain, List.reverse_append,
    List.reverse_reverse]

theorem stripB_eq_self_parts (l : List Nat) (h : stripB l = l) :
    l.dropWhile wsp = l ∧ dropTrailing wsp l = l := by
  have h1 : List.Sublist (l.dropWhile wsp) l := List.dropWhile_sublist wsp
  have h2 : List.Sublist (dropTrailing wsp (l.dropWhile wsp))
      (l.dropWhile wsp) := by
    have hs : List.Sublist ((l.dropWhile wsp).reverse.dropWhile wsp)
        (l.dropWhile wsp).reverse := List.dropWhile_sublist wsp
    have := hs.reverse
    simpa [dropTrailing] using this
  have hll : List.Sublist l (l.dropWhile wsp) := by
    have h3 : List.Sublist (stripB l) (l.dropWhile wsp) := h2
    rwa [h] at h3
  have heq : l.dropWhile wsp = l := (hll.antisymm h1).symm
  refine ⟨heq, ?_⟩
  have := h
  rw [stripB, heq] at this
  exact this

theorem takeWhile_append_all (p : Nat → Bool) (a b : List Nat)
    (h : ∀ x ∈ a, p x = true) :
    (a ++ b).takeWhile p = a ++ b.takeWhile p := by
  induction a with
  | nil => simp
  | cons c a' ih =>
    have hc : p c = true := h c (List.mem_cons_self c a')
    simp only [List.cons_append, List.takeWhile_cons_of_pos hc,
      ih fun x hx => h x (List.mem_cons_of_mem c hx)]

theorem dropWhile_append_all (p : Nat → Bool) (a b : List Nat)
    (h : ∀ x ∈ a, p x = true) :
    (a ++ b).dropWhile p = b.dropWhile p := by
  induction a with
  | nil => simp
  | cons c a' ih =>
    have hc : p c = true := h c (List.mem_cons_self c a')
    simp only [List.cons_append, List.dropWhile_cons_of_pos hc,
      ih fun x hx => h x (List.mem_cons_of_mem c hx)]

theorem rsplitLast_append (fn sz : List Nat)
    (hsz : ∀ x ∈ sz, wsp x = false)
    (hfn : dropTrailing wsp fn = fn) :
    rsplitLast (fn ++ 32 :: sz) = (fn, some sz) := by
  have hrev : (fn ++ 32 :: sz).reverse = sz.reverse ++ 32 :: fn.reverse := by
    simp
  have htok : ((fn ++ 32 :: sz).reverse.takeWhile fun b => !wsp b)
      = sz.reverse := by
    rw [hrev, takeWhile_append_all _ _ _ fun x hx => by
      simp [hsz x (List.mem_reverse.mp hx)]]
    rw [List.takeWhile_cons_of_neg (by decide), List.append_nil]
  have hrest : ((fn ++ 32 :: sz).reverse.dropWhile fun b => !wsp b)
      = 32 :: fn.reverse := by
    rw [hrev, dropWhile_append_all _ _ _ fun x hx => by
      simp [hsz x (List.mem_reverse.mp hx)]]
    rw [List.dropWhile_cons_of_neg (by decide)]
  have hfnrev : fn.reverse.dropWhile wsp = fn.reverse := by
    have := congrArg List.reverse hfn
    simpa [dropTrailing] using this
  simp only [rsplitLast, htok, hrest, List.isEmpty_cons, Bool.false_eq_true,
    if_false]
  rw [List.dropWhile_cons_of_pos (by decide : wsp 32 = true), hfnrev]
  simp

theorem stripB_marker_line (pfx rest : List Nat) (hp : wsp pfx.head! = false)
    (hpne : pfx ≠ []) (hs : dropTrailing wsp rest = rest) (hne : rest ≠ []) :
    stripB (pfx ++ rest) = pfx ++ rest := by
  obtain ⟨c, t, rfl⟩ : ∃ c t, pfx = c :: t := by
    match pfx with
    | [] => exact absurd rfl hpne
    | c :: t => exact ⟨c, t, rfl⟩
  simp only [List.head!] at hp
  rw [stripB, List.cons_append, List.dropWhile_cons_of_neg (by simp [hp])]
  rw [← List.cons_append]
  exact dropTrailing_append wsp (c :: t) rest hs hne

theorem parseListLoop_dir (dn : List Nat) (rest : List (List Nat))
    (hs : stripB dn = dn) (hne : dn ≠ [])
    (herr : containsB STORAGE_ERROR_BYTES (strBytes "[D] " ++ dn) = false) :
    parseListLoop ((strBytes "[D] " ++ dn) :: rest)
      = (dn, EntryKind.dir) :: parseListLoop rest := by
  have e1 : strBytes "[D] " = [91, 68, 93, 32] := rfl
  rw [e1] at herr
  have hline : stripB ([91, 68, 93, 32] ++ dn) = [91, 68, 93, 32] ++ dn :=
    stripB_marker_line [91, 68, 93, 32] dn (by decide) (by simp)
      (stripB_eq_self_parts dn hs).2 hne
  have hdrop : ([91, 68, 93, 32] ++ dn).drop 4 = dn := by
    simp [List.cons_append]
  have hpre : (strBytes "[D]").isPrefixOf ([91, 68, 93, 32] ++ dn) = true := by
    have e2 : strBytes "[D]" = [91, 68, 93] := rfl
    rw [e2]
    simp [List.isPrefixOf, List.cons_append]
  have hie : ([91, 68, 93, 32] ++ dn).isEmpty = false := by
    simp [List.cons_append]
  simp only [parseListLoop, e1, hline, hie, Bool.false_eq_true, if_false,
    herr, hpre, if_true, hdrop, hs]
  rw [if_neg (by simpa [List.isEmpty_iff] using hne)]

theorem parseListLoop_file (fn sz : List Nat) (rest : List (List Nat))
    (hfs : stripB fn = fn) (hfne : fn ≠ [])
    (herr : containsB STORAGE_ERROR_BYTES
      (strBytes "[F] " ++ (fn ++ 32 :: sz)) = false)
    (hsz : ∀ x ∈ sz, wsp x = false) (hsze : sz ≠ []) :
    parseListLoop ((strBytes "[F] " ++ (fn ++ 32 :: sz)) :: rest)
      = (fn, EntryKind.file) :: parseListLoop rest := by
  have e1 : strBytes "[F] " = [91, 70, 93, 32] := rfl
  rw [e1] at herr
  have hdt32 : dropTrailing wsp (32 :: sz) = 32 :: sz := by
    obtain ⟨c, t, hct⟩ : ∃ c t, sz.reverse = c :: t := by
      match hsr : sz.reverse with
      | [] => exact absurd (by simpa using congrArg List.reverse hsr) hsze
      | c :: t => exact ⟨c, t, rfl⟩
    have hc : wsp c = false :=
      hsz c (List.mem_reverse.mp (hct ▸ List.mem_cons_self c t))
    rw [dropTrailing, List.reverse_cons, hct,
      dropWhile_append_left wsp (c :: t) [32] (by simp [hc]) (by simp)]
    simp [← hct]
  have htail : dropTrailing wsp (fn ++ 32 :: sz) = fn ++ 32 :: sz :=
    dropTrailing_append wsp fn (32 :: sz) hdt32 (by simp)
  have hline : stripB ([91, 70, 93, 32] ++ (fn ++ 32 :: sz))
      = [91, 70, 93, 32] ++ (fn ++ 32 :: sz) :=
    stripB_marker_line [91, 70, 93, 32] (fn ++ 32 :: sz) (by decide)
      (by simp) htail (by simp)
  have hdrop : ([91, 70, 93, 32] ++ (fn ++ 32 :: sz)).drop 4
      = fn ++ 32 :: sz := by
    simp [List.cons_append]
  have hnd : (strBytes "[D]").isPrefixOf ([91, 70, 93, 32] ++ (fn ++ 32 :: sz))
      = false := by
    have e2 : strBytes "[D]" = [91, 68, 93] := rfl
    rw [e2]
    simp [List.isPrefixOf, List.cons_append]
  have hf : (strBytes "[F]").isPrefixOf ([91, 70, 93, 32] ++ (fn ++ 32 :: sz))
      = true := by
    have e3 : strBytes "[F]" = [91, 70, 93] := rfl
    rw [e3]
    simp [List.isPrefixOf, List.cons_append]
  have hie : ([91, 70, 93, 32] ++ (fn ++ 32 :: sz)).isEmpty = false := by
    simp [List.cons_append]
  have hparts : stripB (fn ++ 32 :: sz) = fn ++ 32 :: sz := by
    obtain ⟨c, t, hct⟩ : ∃ c t, fn = c :: t := by
      match fn with
      | [] => exact absurd rfl hfne
      | c :: t => exact ⟨c, t, rfl⟩
    have hc : wsp c = false := by
      obtain ⟨c', t', heq, hw⟩ :=
        dropWhile_eq_self_head wsp fn (stripB_eq_self_parts fn hfs).1 hfne
      rw [hct] at heq
      cases heq
      exact hw
    rw [stripB, hct, List.cons_append,
      List.dropWhile_cons_of_neg (by simp [hc]), ← List.cons_append, ← hct]
    exact htail
  have hpe : (fn ++ 32 :: sz).isEmpty = false := by
    simp
  have hrs : rsplitLast (fn ++ 32 :: sz) = (fn, some sz) :=
    rsplitLast_append fn sz hsz (stripB_eq_self_parts fn hfs).2
  simp only [parseListLoop, e1, hline, hie, Bool.false_eq_true, if_false,
    herr, hnd, hf, if_true, hdrop, hparts, hpe, hrs]

/-- C9 (amended): in a `storage list` response, every line of the form
`[D] <name>` (name nonblank, line not containing the storage-error marker)
contributes exactly one `dir` entry carrying the full name, and every line
of the form `[F] <name> <size>` (same provisos, size a nonempty
whitespace-free token) contributes exactly one `file` entry whose name is
everything before the last whitespace run — so a file name containing
embedded spaces is returned intact. -/
theorem storage_list_marker_lines (pre post : List (List Nat))
    (dn fn sz : List Nat)
    (hpre : ∀ l ∈ pre, ∀ b ∈ l, ¬ b = 10)
    (hpost : ∀ l ∈ post, ∀ b ∈ l, ¬ b = 10)
    (hdn10 : ∀ b ∈ dn, ¬ b = 10) (hdns : stripB dn = dn) (hdne : dn ≠ [])
    (hdnerr : containsB STORAGE_ERROR_BYTES (strBytes "[D] " ++ dn) = false)
    (hfn10 : ∀ b ∈ fn, ¬ b = 10) (hfns : stripB fn = fn) (hfne : fn ≠ [])
    (hflerr : containsB STORAGE_ERROR_BYTES
      (strBytes "[F] " ++ (fn ++ 32 :: sz)) = false)
    (hszw : ∀ b ∈ sz, wsp b = false) (hsze : sz ≠ []) :
    FlipperSerial.storage_list
        (joinNL (pre ++ (strBytes "[D] " ++ dn)
          :: (strBytes "[F] " ++ (fn ++ 32 :: sz)) :: post))
      = parseListLoop pre
          ++ (dn, EntryKind.dir) :: (fn, EntryKind.file)
          :: parseListLoop post := by
  have hd10 : ∀ b ∈ strBytes "[D] " ++ dn, ¬ b = 10 := by
    intro b hb
    rcases List.mem_append.mp hb with hb | hb
    · have e1 : strBytes "[D] " = [91, 68, 93, 32] := rfl
      rw [e1] at hb
      simp only [List.mem_cons, List.not_mem_nil, or_false] at hb
      rcases hb with rfl | rfl | rfl | rfl <;> decide
    · exact hdn10 b hb
  have hf10 : ∀ b ∈ strBytes "[F] " ++ (fn ++ 32 :: sz), ¬ b = 10 := by
    intro b hb
    rcases List.mem_append.mp hb with hb | hb
    · have e1 : strBytes "[F] " = [91, 70, 93, 32] := rfl
      rw [e1] at hb
      simp only [List.mem_cons, List.not_mem_nil, or_false] at hb
      rcases hb with rfl | rfl | rfl | rfl <;> decide
    · rcases List.mem_append.mp hb with hb | hb
      · exact hfn10 b hb
      · rcases List.mem_cons.mp hb with rfl | hb
        · decide
        · intro hbe
          subst hbe
          have := hszw 10 hb
          simp [wsp] at this
  have hall : ∀ l ∈ pre ++ (strBytes "[D] " ++ dn)
      :: (strBytes "[F] " ++ (fn ++ 32 :: sz)) :: post, ∀ b ∈ l, ¬ b = 10 := by
    intro l hl
    rcases List.mem_append.mp hl with hl | hl
    · exact hpre l hl
    · rcases List.mem_cons.mp hl with rfl | hl
      · exact hd10
      · rcases List.mem_cons.mp hl with rfl | hl
        · exact hf10
        · exact hpost l hl
  rw [FlipperSerial.storage_list, splitOnNL_joinNL _ (by simp) hall,
    parseListLoop_append, parseListLoop_dir dn _ hdns hdne hdnerr,
    parseListLoop_file fn sz post hfns hfne hflerr hszw hsze]

theorem storage_list_marker_lines_witness :
    ((∀ l ∈ ([] : List (List Nat)), ∀ b ∈ l, ¬ b = 10)
    ∧ (∀ b ∈ strBytes "nfc", ¬ b = 10)
    ∧ stripB (strBytes "nfc") = strBytes "nfc" ∧ strBytes "nfc" ≠ []
    ∧ containsB STORAGE_ERROR_BYTES
        (strBytes "[D] " ++ strBytes "nfc") = false
    ∧ (∀ b ∈ strBytes "My card.nfc", ¬ b = 10)
    ∧ stripB (strBytes "My card.nfc") = strBytes "My card.nfc"
    ∧ strBytes "My card.nfc" ≠ []
    ∧ containsB STORAGE_ERROR_BYTES
        (strBytes "[F] " ++ (strBytes "My card.nfc" ++ 32 :: strBytes "1234"))
        = false
    ∧ (∀ b ∈ strBytes "1234", wsp b = false) ∧ strBytes "1234" ≠ [])
  ∧ FlipperSerial.storage_list
        (joinNL ([] ++ (strBytes "[D] " ++ strBytes "nfc")
          :: (strBytes "[F] "
              ++ (strBytes "My card.nfc" ++ 32 :: strBytes "1234")) :: []))
      = parseListLoop []
          ++ (strBytes "nfc", EntryKind.dir)
          :: (strBytes "My card.nfc", EntryKind.file) :: parseListLoop [] :=
  ⟨⟨by decide, by decide, by decide, by decide, by decide, by decide,
    by decide, by decide, by decide, by decide, by decide⟩,
   storage_list_marker_lines [] [] (strBytes "nfc") (strBytes "My card.nfc")
     (strBytes "1234") (by decide) (by decide) (by decide) (by decide)
     (by decide) (by decide) (by decide) (by decide) (by decide) (by decide)
     (by decide) (by decide)⟩

/-- C9 counterexample to the claim as stated: the response line
`[D] Storage error` begins with the directory marker `[D]`, yet
`storage_list` returns no entry for it — lines containing the
storage-error marker are skipped regardless of their marker prefix. -/
theorem storage_list_marker_line_ce :
    (strBytes "[D]").isPrefixOf (strBytes "[D] Storage error") = true
  ∧ FlipperSerial.storage_list (strBytes "[D] Storage error") = [] :=
  ⟨by decide, by decide⟩

/-- C10: `storage_mkdir` never inspects the response for the storage-error
marker: whenever the underlying `send_command` succeeds with response `r`,
`storage_mkdir` returns exactly `r` as success — in particular (second and
third conjuncts) a response that is a device-reported storage error is
returned to the caller as a normal success value. -/
theorem storage_mkdir_no_error_inspection :
    (∀ (s : FlipperSerial) (path : String)
        (reads : List (Option (List Nat))) (r : List Nat),
      (s.send_command (FlipperSerial.mkdirCmd path) reads).2 = .ok r →
      (s.storage_mkdir path reads).2 = .ok r)
  ∧ (FlipperSerial.storage_mkdir ⟨"/dev/p", some 0⟩ "/ext/d"
      [some (strBytes
        "storage mkdir /ext/d\r\nStorage error: internal\r\n>: ")]).2
      = .ok (strBytes "Storage error: internal")
  ∧ containsB STORAGE_ERROR_BYTES (strBytes "Storage error: internal")
      = true := by
  refine ⟨fun s path reads r h => h, by decide, by decide⟩

theorem storage_mkdir_no_error_inspection_witness :
    ((FlipperSerial.send_command ⟨"/dev/p", some 0⟩
        (FlipperSerial.mkdirCmd "/ext/d")
        [some (strBytes "storage mkdir /ext/d\r\nOK\r\n>: ")]).2
      = .ok (strBytes "OK"))
  ∧ (FlipperSerial.storage_mkdir ⟨"/dev/p", some 0⟩ "/ext/d"
        [some (strBytes "storage mkdir /ext/d\r\nOK\r\n>: ")]).2
      = .ok (strBytes "OK") :=
  ⟨by decide,
   storage_mkdir_no_error_inspection.1 ⟨"/dev/p", some 0⟩ "/ext/d"
     [some (strBytes "storage mkdir /ext/d\r\nOK\r\n>: ")]
     (strBytes "OK") (by decide)⟩

/-- A CSI sequence `ESC [ [0-9;]* letter` starts at the head of the list. -/
def csiAt : List Nat → Bool
  | b :: c :: rest => b == 27 && c == 91 && (csiTail rest).isSome
  | _ => false

/-- The byte list contains an ANSI CSI sequence somewhere. -/
def hasCsi : List Nat → Bool
  | [] => false
  | b :: rest => csiAt (b :: rest) || hasCsi rest

theorem hasCsi_eq_false_of_no_esc :
    ∀ l : List Nat, ¬ 27 ∈ l → hasCsi l = false := by
  intro l
  induction l with
  | nil => intro _; rfl
  | cons b rest ih =>
    intro h
    have hb : ¬ b = 27 := fun hb => h (hb ▸ List.mem_cons_self b rest)
    have hr : hasCsi rest = false :=
      ih fun hx => h (List.mem_cons_of_mem b hx)
    match rest with
    | [] => simp [hasCsi, csiAt]
    | c :: rest2 =>
      have hcsi : csiAt (b :: c :: rest2) = false := by
        simp [csiAt, hb]
      have hunf : hasCsi (b :: c :: rest2)
          = (csiAt (b :: c :: rest2) || hasCsi (c :: rest2)) := rfl
      rw [hunf, hcsi, hr]
      rfl

theorem containsB_iff (needle : List Nat) :
    ∀ l : List Nat, containsB needle l = true ↔ needle <:+: l := by
  intro l
  induction l with
  | nil =>
    simp only [containsB, List.isEmpty_iff]
    constructor
    · intro h
      simp [h]
    · intro h
      simpa using List.eq_nil_of_sublist_nil h.sublist
  | cons b rest ih =>
    simp only [containsB, Bool.or_eq_true, List.isPrefixOf_iff_prefix, ih,
      List.infix_cons_iff]

theorem mem_nlNorm : ∀ (l : List Nat) (x : Nat),
    x ∈ nlNorm l → x ∈ l ∨ x = 10
  | [], x, h => by simp [nlNorm] at h
  | [b], x, h => by
    simp only [nlNorm] at h
    split at h
    · right
      simpa using h
    · left
      simpa using h
  | b :: c :: rest, x, h => by
    simp only [nlNorm] at h
    split at h
    · split at h
      · rcases List.mem_cons.mp h with rfl | h
        · right; rfl
        · rcases mem_nlNorm rest x h with h | h
          · exact Or.inl (List.mem_cons_of_mem b (List.mem_cons_of_mem c h))
          · exact Or.inr h
      · rcases List.mem_cons.mp h with rfl | h
        · right; rfl
        · rcases mem_nlNorm (c :: rest) x h with h | h
          · exact Or.inl (List.mem_cons_of_mem b h)
          · exact Or.inr h
    · rcases List.mem_cons.mp h with rfl | h
      · exact Or.inl (List.mem_cons_self x (c :: rest))
      · rcases mem_nlNorm (c :: rest) x h with h | h
        · exact Or.inl (List.mem_cons_of_mem b h)
        · exact Or.inr h

theorem mem_splitOnNL : ∀ (l piece : List Nat),
    piece ∈ splitOnNL l → ∀ x ∈ piece, x ∈ l := by
  intro l
  induction l with
  | nil =>
    intro piece hp x hx
    simp only [splitOnNL, List.mem_singleton] at hp
    subst hp
    simp at hx
  | cons b rest ih =>
    intro piece hp x hx
    simp only [splitOnNL] at hp
    split at hp
    · rcases List.mem_cons.mp hp with rfl | hp
      · simp at hx
      · exact List.mem_cons_of_mem b (ih piece hp x hx)
    · revert hp
      match hm : splitOnNL rest with
      | [] =>
        intro hp
        simp only [List.mem_singleton] at hp
        subst hp
        have hxb : x = b := by simpa using hx
        subst hxb
        exact List.mem_cons_self x rest
      | h0 :: t =>
        intro hp
        rcases List.mem_cons.mp hp with rfl | hp
        · rcases List.mem_cons.mp hx with rfl | hx
          · exact List.mem_cons_self x rest
          · have : h0 ∈ splitOnNL rest := by rw [hm]; exact List.mem_cons_self h0 t
            exact List.mem_cons_of_mem b (ih h0 this x hx)
        · have : piece ∈ splitOnNL rest := by
            rw [hm]; exact List.mem_cons_of_mem h0 hp
          exact List.mem_cons_of_mem b (ih piece this x hx)

theorem mem_joinNL : ∀ (ls : List (List Nat)) (x : Nat),
    x ∈ joinNL ls → (∃ l ∈ ls, x ∈ l) ∨ x = 10
  | [], x, h => by simp [joinNL] at h
  | [l], x, h => Or.inl ⟨l, List.mem_cons_self l [], by simpa [joinNL] using h⟩
  | l :: l2 :: ls, x, h => by
    have hj : joinNL (l :: l2 :: ls) = l ++ 10 :: joinNL (l2 :: ls) := rfl
    rw [hj] at h
    rcases List.mem_append.mp h with h | h
    · exact Or.inl ⟨l, List.mem_cons_self l _, h⟩
    · rcases List.mem_cons.mp h with rfl | h
      · exact Or.inr rfl
      · rcases mem_joinNL (l2 :: ls) x h with ⟨l', hl', hx'⟩ | h
        · exact Or.inl ⟨l', List.mem_cons_of_mem l hl', hx'⟩
        · exact Or.inr h

theorem stripB_sublist (l : List Nat) : List.Sublist (stripB l) l := by
  have h1 : List.Sublist (l.dropWhile wsp) l := List.dropWhile_sublist wsp
  have h2 : List.Sublist (stripB l) (l.dropWhile wsp) := by
    have hs : List.Sublist ((l.dropWhile wsp).reverse.dropWhile wsp)
        (l.dropWhile wsp).reverse := List.dropWhile_sublist wsp
    have := hs.reverse
    simpa [stripB, dropTrailing] using this
  exact h2.trans h1

theorem mem_logicalResponse (raw : List Nat) (cmd : String) (x : Nat)
    (h : x ∈ FlipperSerial.logicalResponse raw cmd) :
    x ∈ strip_ansi raw ∨ x = 10 := by
  have h1 : x ∈ joinNL (FlipperSerial.keptLines raw cmd) :=
    (stripB_sublist _).mem h
  rcases mem_joinNL _ x h1 with ⟨l, hl, hx⟩ | h10
  · have hl2 : l ∈ FlipperSerial.outputLines raw cmd := by
      have : List.Sublist (FlipperSerial.keptLines raw cmd)
          (FlipperSerial.outputLines raw cmd) := by
        have hs : List.Sublist
            ((FlipperSerial.outputLines raw cmd).reverse.dropWhile
              FlipperSerial.isPromptOrBlank)
            (FlipperSerial.outputLines raw cmd).reverse :=
          List.dropWhile_sublist _
        have := hs.reverse
        simpa [FlipperSerial.keptLines, dropTrailingLines] using this
      exact this.mem hl
    have hl3 : l ∈ FlipperSerial.responseLines raw := by
      have := (List.drop_suffix (FlipperSerial.echoStart
        (FlipperSerial.responseLines raw) (stripB (strBytes cmd)))
        (FlipperSerial.responseLines raw)).sublist
      exact this.mem hl2
    have hx2 : x ∈ nlNorm (strip_ansi raw) :=
      mem_splitOnNL _ l hl3 x hx
    exact mem_nlNorm _ x hx2
  · exact Or.inr h10

theorem prefix_of_append_sep :
    ∀ (xs ys needle : List Nat), needle <+: xs ++ 10 :: ys →
      ¬ 10 ∈ needle → needle <+: xs := by
  intro xs
  induction xs with
  | nil =>
    intro ys needle h h10
    match needle with
    | [] => exact List.nil_prefix
    | n :: t =>
      rw [List.nil_append] at h
      rcases List.cons_prefix_cons.mp h with ⟨rfl, _⟩
      exact absurd (List.mem_cons_self _ _) h10
  | cons x xs ih =>
    intro ys needle h h10
    match needle with
    | [] => exact List.nil_prefix
    | n :: t =>
      rw [List.cons_append] at h
      rcases List.cons_prefix_cons.mp h with ⟨rfl, ht⟩
      exact List.cons_prefix_cons.mpr
        ⟨rfl, ih ys t ht fun hm => h10 (List.mem_cons_of_mem _ hm)⟩

theorem infix_of_append_sep :
    ∀ (xs ys needle : List Nat), needle <:+: xs ++ 10 :: ys →
      ¬ 10 ∈ needle → needle ≠ [] → needle <:+: xs ∨ needle <:+: ys := by
  intro xs
  induction xs with
  | nil =>
    intro ys needle h h10 hne
    rw [List.nil_append] at h
    rcases List.infix_cons_iff.mp h with h | h
    · match needle, hne with
      | n :: t, _ =>
        rcases List.cons_prefix_cons.mp h with ⟨rfl, _⟩
        exact absurd (List.mem_cons_self _ _) h10
    · exact Or.inr h
  | cons x xs ih =>
    intro ys needle h h10 hne
    rw [List.cons_append] at h
    rcases List.infix_cons_iff.mp h with h | h
    · have hp : needle <+: x :: xs := by
        have h' : needle <+: (x :: xs) ++ 10 :: ys := by
          rwa [List.cons_append]
        exact prefix_of_append_sep (x :: xs) ys needle h' h10
      exact Or.inl hp.isInfix
    · rcases ih ys needle h h10 hne with h | h
      · exact Or.inl (List.infix_cons_iff.mpr (Or.inr h))
      · exact Or.inr h

theorem infix_joinNL :
    ∀ (ls : List (List Nat)) (needle : List Nat), needle ≠ [] →
      ¬ 10 ∈ needle → needle <:+: joinNL ls → ∃ l ∈ ls, needle <:+: l
  | [], needle, hne, _, h => by
    simp only [joinNL] at h
    exact absurd (List.eq_nil_of_sublist_nil h.sublist) hne
  | [l], needle, _, _, h =>
    ⟨l, List.mem_cons_self l [], by simpa [joinNL] using h⟩
  | l :: l2 :: ls, needle, hne, h10, h => by
    have hj : joinNL (l :: l2 :: ls) = l ++ 10 :: joinNL (l2 :: ls) := rfl
    rw [hj] at h
    rcases infix_of_append_sep l _ needle h h10 hne with h | h
    · exact ⟨l, List.mem_cons_self l _, h⟩
    · obtain ⟨l', hl', hx⟩ := infix_joinNL (l2 :: ls) needle hne h10 h
      exact ⟨l', List.mem_cons_of_mem l hl', hx⟩

theorem stripB_isInfix (l : List Nat) : stripB l <:+: l := by
  have h1 : l.dropWhile wsp <:+ l := List.dropWhile_suffix wsp
  have h2 : stripB l <+: l.dropWhile wsp := by
    obtain ⟨t, ht⟩ := List.dropWhile_suffix (l := (l.dropWhile wsp).reverse) wsp
    refine ⟨t.reverse, ?_⟩
    have hm := congrArg List.reverse ht
    rw [List.reverse_append] at hm
    simpa [stripB, dropTrailing] using hm
  exact h2.isInfix.trans h1.isInfix

/-- C4 (amended): for every command string free of the sentinel and every
device stream, provided the ANSI-stripped raw response contains no residual
ESC byte and no line of the retained output (after discarding the command
echo and the trailing prompt or blank lines) contains the sentinel, the
string `send_command` returns contains neither the `">: "` sentinel nor any
ANSI CSI sequence. -/
theorem send_command_clean (s : FlipperSerial) (n : Nat) (hfd : s.fd = some n)
    (cmd : String) (reads : List (Option (List Nat))) (raw : List Nat)
    (hread : read_until_prompt reads [] = .ok raw)
    (_hcmd : containsB CLI_PROMPT_BYTES (strBytes cmd) = false)
    (hesc : ¬ 27 ∈ strip_ansi raw)
    (hkept : ∀ l ∈ FlipperSerial.keptLines raw cmd,
      containsB CLI_PROMPT_BYTES l = false) :
    (s.send_command cmd reads).2
        = .ok (FlipperSerial.logicalResponse raw cmd)
  ∧ containsB CLI_PROMPT_BYTES (FlipperSerial.logicalResponse raw cmd)
      = false
  ∧ hasCsi (FlipperSerial.logicalResponse raw cmd) = false := by
  refine ⟨?_, ?_, ?_⟩
  · simp [FlipperSerial.send_command, hfd, hread]
  · cases hb : containsB CLI_PROMPT_BYTES
        (FlipperSerial.logicalResponse raw cmd) with
    | false => rfl
    | true =>
      exfalso
      have hx := (containsB_iff _ _).mp hb
      have hx2 : CLI_PROMPT_BYTES <:+:
          joinNL (FlipperSerial.keptLines raw cmd) :=
        hx.trans (stripB_isInfix _)
      obtain ⟨l, hl, hli⟩ := infix_joinNL _ _ (by decide) (by decide) hx2
      have hfalse := hkept l hl
      have htrue := (containsB_iff CLI_PROMPT_BYTES l).mpr hli
      rw [hfalse] at htrue
      exact Bool.noConfusion htrue
  · apply hasCsi_eq_false_of_no_esc
    intro hmem
    rcases mem_logicalResponse raw cmd 27 hmem with h | h
    · exact hesc h
    · simp at h

theorem send_command_clean_witness :
    ((⟨"/dev/p", some 0⟩ : FlipperSerial).fd = some 0
    ∧ read_until_prompt [some (strBytes "foo\r\nbar\r\n>: ")] []
        = .ok (strBytes "foo\r\nbar\r\n>: ")
    ∧ containsB CLI_PROMPT_BYTES (strBytes "foo") = false
    ∧ ¬ 27 ∈ strip_ansi (strBytes "foo\r\nbar\r\n>: ")
    ∧ (∀ l ∈ FlipperSerial.keptLines (strBytes "foo\r\nbar\r\n>: ") "foo",
        containsB CLI_PROMPT_BYTES l = false))
  ∧ ((FlipperSerial.send_command ⟨"/dev/p", some 0⟩ "foo"
        [some (strBytes "foo\r\nbar\r\n>: ")]).2
      = .ok (FlipperSerial.logicalResponse
          (strBytes "foo\r\nbar\r\n>: ") "foo")
    ∧ containsB CLI_PROMPT_BYTES (FlipperSerial.logicalResponse
        (strBytes "foo\r\nbar\r\n>: ") "foo") = false
    ∧ hasCsi (FlipperSerial.logicalResponse
        (strBytes "foo\r\nbar\r\n>: ") "foo") = false) :=
  ⟨⟨rfl, by decide, by decide, by decide, by decide⟩,
   send_command_clean ⟨"/dev/p", some 0⟩ 0 rfl "foo"
     [some (strBytes "foo\r\nbar\r\n>: ")] (strBytes "foo\r\nbar\r\n>: ")
     (by decide) (by decide) (by decide) (by decide)⟩

/-- C4 counterexample to the claim as stated: for the command `"foo"`
(which contains no sentinel bytes) there is a device response stream for
which `send_command` returns a string that contains both the `">: "`
sentinel and an ANSI CSI sequence: stripping `\x1b[4h` out of
`\x1b[3\x1b[4h1m` splices the fresh CSI sequence `\x1b[31m` together, and
an interior `">: "` inside a response line survives the prompt cleanup. -/
theorem send_command_clean_ce :
    (FlipperSerial.send_command ⟨"/dev/p", some 0⟩ "foo"
        [some (strBytes "foo\r\nx >: y\r\n\x1b[3\x1b[4h1mz\r\n>: ")]).2
      = .ok (strBytes "x >: y\n\x1b[31mz")
  ∧ containsB CLI_PROMPT_BYTES (strBytes "x >: y\n\x1b[31mz") = true
  ∧ hasCsi (strBytes "x >: y\n\x1b[31mz") = true
  ∧ containsB CLI_PROMPT_BYTES (strBytes "foo") = false :=
  ⟨by decide, by decide, by decide, by decide⟩
